import Mathlib

set_option maxRecDepth 4000

/-!
Verification of the sanitization/extraction pipeline of
`benchmark_tool/generator.py`.

Python strings are modelled as lists of characters (`Str`), and the
string primitives the source uses (`str.strip`, `str.splitlines`,
`str.split('\n')`, `'\n'.join`, `str.replace`, `str.startswith`,
`str.endswith`) are given executable definitions below.  The syntax
validity oracle (`ast.parse` in the source) is an external dependency of
the pipeline and is modelled as a parameter: a boolean predicate for the
pure pipeline, and a three-valued verdict (valid / SyntaxError / other
failure) for the exception-aware variant.
-/

abbrev Str := List Char

/-- Characters stripped by Python `str.strip()` (the whitespace set of
`str.isspace` restricted to the characters that can occur here). -/
def py_ws (c : Char) : Bool :=
  c = ' ' || c = '\t' || c = '\n' || c = '\r' || c = '\u000b' || c = '\u000c' ||
  c = '\u001c' || c = '\u001d' || c = '\u001e' || c = '\u0085' || c = '\u00a0' ||
  c = '\u2028' || c = '\u2029'

/-- Python `str.lstrip()`. -/
def lstrip (s : Str) : Str := s.dropWhile py_ws

/-- Python `str.rstrip()`. -/
def rstrip (s : Str) : Str := (s.reverse.dropWhile py_ws).reverse

/-- Python `str.strip()`. -/
def py_strip (s : Str) : Str := rstrip (lstrip s)

/-- Line-boundary characters of Python `str.splitlines()`
(besides the two-character boundary `\r\n`). -/
def py_linebreak (c : Char) : Bool :=
  c = '\n' || c = '\r' || c = '\u000b' || c = '\u000c' || c = '\u001c' ||
  c = '\u001d' || c = '\u001e' || c = '\u0085' || c = '\u2028' || c = '\u2029'

/-- Worker for `splitlines`.  The first argument records whether the
previous character was `\r` (so that a following `\n` is part of the
same `\r\n` boundary); the second accumulates the current line in
reverse. -/
def splitlinesAux : Bool → Str → Str → List Str
  | _, acc, [] => if acc.isEmpty then [] else [acc.reverse]
  | afterCr, acc, c :: rest =>
    if afterCr && c = '\n' then splitlinesAux false acc rest
    else if c = '\r' then acc.reverse :: splitlinesAux true [] rest
    else if py_linebreak c then acc.reverse :: splitlinesAux false [] rest
    else splitlinesAux false (c :: acc) rest

/-- Python `str.splitlines()`. -/
def splitlines (s : Str) : List Str := splitlinesAux false [] s

/-- Prepend a character to the first piece of a split. -/
def cons_head (c : Char) : List Str → List Str
  | [] => [[c]]
  | h :: t => (c :: h) :: t

/-- Python `str.split('\n')`. -/
def split_nl : Str → List Str
  | [] => [[]]
  | c :: rest => if c = '\n' then [] :: split_nl rest else cons_head c (split_nl rest)

/-- Python `'\n'.join(...)`. -/
def join_nl : List Str → Str
  | [] => []
  | [l] => l
  | l :: l2 :: rest => l ++ '\n' :: join_nl (l2 :: rest)

/-- Worker for `py_replace`; the fuel argument is an upper bound on the
number of scanning steps (one per input character suffices). -/
def replace_fuel (pat repl : Str) : Nat → Str → Str
  | 0, s => s
  | _ + 1, [] => []
  | fuel + 1, c :: rest =>
    if pat.isPrefixOf (c :: rest) then
      repl ++ replace_fuel pat repl fuel (List.drop (pat.length - 1) rest)
    else
      c :: replace_fuel pat repl fuel rest

/-- Python `s.replace(pat, repl)` for a non-empty pattern: left-to-right
replacement of non-overlapping occurrences. -/
def py_replace (s pat repl : Str) : Str := replace_fuel pat repl s.length s

/-- Whether `pat` occurs as a contiguous substring. -/
def occursB (pat : Str) : Str → Bool
  | [] => pat.isEmpty
  | c :: rest => pat.isPrefixOf (c :: rest) || occursB pat rest

/-- The code-start test of generator.py (lines 20 and 140):
`line.strip().startswith(('import ', 'from ', 'def '))`. -/
def starts_code (line : Str) : Bool :=
  let s := py_strip line
  "import ".data.isPrefixOf s || "from ".data.isPrefixOf s || "def ".data.isPrefixOf s

/-- Worker for `find_start` threading the running index. -/
def find_start_aux : Nat → List Str → Nat
  | _, [] => 0
  | i, l :: rest => if starts_code l then i else find_start_aux (i + 1) rest

/-- The start-index search of `_strip_trailing_prose` (generator.py
lines 15-22): the index of the first line whose stripped content starts
with a code-start token, and 0 when there is none. -/
def find_start (lines : List Str) : Nat := find_start_aux 0 lines

/-- The candidate `'\n'.join(lines[s:i+1])` submitted to the oracle
(generator.py line 27). -/
def candidate (lines : List Str) (s i : Nat) : Str :=
  join_nl ((lines.drop s).take (i + 1 - s))

/-- Index variant of the scan loop: the last index `i` in the range at
which `P i` holds (`d` when none does). -/
def last_valid (P : Nat → Bool) (a k d : Nat) : Nat :=
  (List.range' a k).foldl (fun acc i => if P i then i else acc) d

/-- The function `_strip_trailing_prose` of generator.py (lines 9-34),
with `ast.parse`-success abstracted as the boolean oracle `validate`:
locate the code start, grow candidates to the end of the line list
keeping the last one that validates (falling back to the whole input),
and strip the result. -/
def strip_trailing_prose (validate : Str → Bool) (code : Str) : Str :=
  let lines := splitlines code
  let s := find_start lines
  py_strip ((List.range' s (lines.length - s)).foldl
    (fun best i => if validate (candidate lines s i) then candidate lines s i else best) code)

/-- Validity of the scan candidate of `code` at end index `i`. -/
def scan_valid (validate : Str → Bool) (code : Str) (i : Nat) : Bool :=
  validate (candidate (splitlines code) (find_start (splitlines code)) i)

/-- The end index of the candidate the scan of `code` finally retains
(when at least one candidate validates). -/
def scan_result_idx (validate : Str → Bool) (code : Str) : Nat :=
  last_valid (scan_valid validate code) (find_start (splitlines code))
    ((splitlines code).length - find_start (splitlines code)) 0

/-- The fence opener with language tag removed at generator.py line 133. -/
def fence_lang : Str := "```python".data

/-- The bare fence marker removed at generator.py line 133. -/
def fence_mark : Str := "```".data

/-- Generator.py line 133:
`result.strip().replace('```python', '').replace('```', '')`. -/
def fence_pass (raw : Str) : Str :=
  py_replace (py_replace (py_strip raw) fence_lang []) fence_mark []

/-- The leading-narrative loop of generator.py lines 136-143: the
`started_code` flag is set on the first code-start line and lines are
kept only once it is set. -/
def intro_aux (started : Bool) : List Str → List Str
  | [] => []
  | line :: rest =>
    let started' := started || starts_code line
    if started' then line :: intro_aux started' rest else intro_aux started' rest

/-- Generator.py lines 136-145: drop everything before the first
code-start line, rejoin, and strip. -/
def intro_pass (t : Str) : Str := py_strip (join_nl (intro_aux false (splitlines t)))

/-- The docstring delimiter `"""` (generator.py line 151). -/
def docDelim : Str := "\"\"\"".data

/-- Python `stripped.startswith('#')`. -/
def starts_hash : Str → Bool
  | [] => false
  | c :: _ => c = '#'

/-- The toggle condition of generator.py line 157:
`stripped.startswith('"""') or stripped.endswith('"""')`. -/
def toggles_delim (line : Str) : Bool :=
  docDelim.isPrefixOf (py_strip line) || docDelim.isSuffixOf (py_strip line)

/-- One step of the `in_docstring` state (generator.py line 158): toggle
exactly once on a delimiter line, unchanged otherwise. -/
def doc_step (st : Bool) (line : Str) : Bool :=
  if toggles_delim line then !st else st

/-- The `in_docstring` state after a list of lines, starting `Outside`. -/
def doc_state (lines : List Str) : Bool := lines.foldl doc_step false

/-- The comment-filter loop of generator.py lines 153-164: delimiter
lines are kept and toggle the state; other lines are kept when inside a
docstring or when stripped they are non-empty and not `#`-comments. -/
def comment_aux (inDoc : Bool) : List Str → List Str
  | [] => []
  | line :: rest =>
    if toggles_delim line then line :: comment_aux (!inDoc) rest
    else if inDoc || (!starts_hash (py_strip line) && !(py_strip line).isEmpty) then
      line :: comment_aux inDoc rest
    else
      comment_aux inDoc rest

/-- Generator.py lines 148-166: split on `'\n'`, filter comments with
docstring awareness, rejoin, and strip. -/
def comment_pass (t : Str) : Str := py_strip (join_nl (comment_aux false (split_nl t)))

/-- The retention condition exactly as the specification words it: the
state is or was `Inside` during the line, or the state is `Outside` and
the stripped line neither begins with `#` nor is empty. -/
def keep_claim (st : Bool) (line : Str) : Bool :=
  (st || doc_step st line) ||
    (!st && !starts_hash (py_strip line) && !(py_strip line).isEmpty)

/-- The whole post-model sanitization of `CodeGenerator.generate`
(generator.py lines 132-168). -/
def sanitize (validate : Str → Bool) (raw : Str) : Str :=
  strip_trailing_prose validate (comment_pass (intro_pass (fence_pass raw)))

/-- Outcome of one `ast.parse` call: success, `SyntaxError` (the only
exception the scan catches), or any other failure. -/
inductive Verdict
  | valid
  | syntaxError
  | failure
  deriving DecidableEq

/-- Exceptions the embedded `generate` can propagate. -/
inductive PyError
  | valueError
  | oracleFailure
  deriving DecidableEq

/-- A verdict counts as a true validity verdict only on success. -/
def verdict_ok : Verdict → Bool
  | Verdict.valid => true
  | _ => false

/-- The scan loop of `_strip_trailing_prose` with the oracle allowed to
fail: `SyntaxError` is caught (`continue`), success updates the best
candidate, and any other failure propagates out of the loop. -/
def scanE_loop (oracle : Str → Verdict) (lines : List Str) (s : Nat) :
    Str → List Nat → Except PyError Str
  | best, [] => Except.ok best
  | best, i :: rest =>
    match oracle (candidate lines s i) with
    | Verdict.valid => scanE_loop oracle lines s (candidate lines s i) rest
    | Verdict.syntaxError => scanE_loop oracle lines s best rest
    | Verdict.failure => Except.error PyError.oracleFailure

/-- `_strip_trailing_prose` with a fallible oracle. -/
def strip_trailing_proseE (oracle : Str → Verdict) (code : Str) : Except PyError Str :=
  let lines := splitlines code
  let s := find_start lines
  (scanE_loop oracle lines s code (List.range' s (lines.length - s))).map py_strip

/-- The sanitization pipeline with a fallible oracle. -/
def sanitizeE (oracle : Str → Verdict) (raw : Str) : Except PyError Str :=
  strip_trailing_proseE oracle (comment_pass (intro_pass (fence_pass raw)))

/-- `CodeGenerator.generate` (generator.py lines 102-171): the
whitespace-only check raising `ValueError` before the model is invoked,
then the model call (an external collaborator, modelled as a total
function), then the sanitization pipeline. -/
def generateE (model : Str → Str) (oracle : Str → Verdict) (description : Str) :
    Except PyError Str :=
  if (py_strip description).isEmpty then Except.error PyError.valueError
  else sanitizeE oracle (model description)

/-! Helper lemmas about stripping. -/

lemma dropWhile_dropWhile (p : Char → Bool) (l : Str) :
    (l.dropWhile p).dropWhile p = l.dropWhile p := by
  induction l with
  | nil => rfl
  | cons a t ih =>
    by_cases h : p a
    · simp [List.dropWhile_cons, h, ih]
    · simp [List.dropWhile_cons, h]

lemma lstrip_lstrip (s : Str) : lstrip (lstrip s) = lstrip s :=
  dropWhile_dropWhile py_ws s

lemma rstrip_rstrip (s : Str) : rstrip (rstrip s) = rstrip s := by
  simp [rstrip, dropWhile_dropWhile]

lemma rstrip_prefix (s : Str) : rstrip s <+: s := by
  have h : (s.reverse.dropWhile py_ws) <:+ s.reverse := List.dropWhile_suffix py_ws
  have h2 : (s.reverse.dropWhile py_ws).reverse <+: s.reverse.reverse := by
    rw [List.reverse_prefix]
    simpa using h
  simpa using h2

lemma lstrip_fixed_head (a : Char) (t : Str) (h : lstrip (a :: t) = a :: t) :
    py_ws a = false := by
  by_contra hcon
  have ha : py_ws a = true := by revert hcon; cases py_ws a <;> simp
  have h1 : lstrip (a :: t) = t.dropWhile py_ws := by
    simp [lstrip, List.dropWhile_cons, ha]
  have h2 : (t.dropWhile py_ws).length ≤ t.length :=
    (List.dropWhile_suffix py_ws).length_le
  rw [h] at h1
  have := congrArg List.length h1
  simp at this
  omega

lemma lstrip_of_fixed (s : Str) (h : lstrip s = s) : lstrip (rstrip s) = rstrip s := by
  rcases hr : rstrip s with _ | ⟨b, u⟩
  · rfl
  · have hpre : rstrip s <+: s := rstrip_prefix s
    rw [hr] at hpre
    rcases hpre with ⟨z, hz⟩
    have hb : py_ws b = false := by
      apply lstrip_fixed_head b (u ++ z)
      rw [show (b :: (u ++ z)) = (b :: u) ++ z by simp, hz]
      exact h
    simp [lstrip, List.dropWhile_cons, hb]

lemma py_strip_idem (s : Str) : py_strip (py_strip s) = py_strip s := by
  show rstrip (lstrip (rstrip (lstrip s))) = rstrip (lstrip s)
  rw [lstrip_of_fixed (lstrip s) (lstrip_lstrip s), rstrip_rstrip]

/-! Helper lemmas about the scan loop. -/

lemma foldl_scan_noop (P : Nat → Bool) (F : Nat → Str) :
    ∀ (k a : Nat) (init : Str), (∀ i, a ≤ i → i < a + k → P i = false) →
      (List.range' a k).foldl (fun best i => if P i then F i else best) init = init := by
  intro k
  induction k with
  | zero => intro a init _; rfl
  | succ k ih =>
    intro a init h
    rw [List.range'_succ]
    have ha : P a = false := h a (Nat.le_refl a) (by omega)
    simp only [List.foldl_cons, ha, if_neg (by simp [ha] : ¬ P a = true)]
    exact ih (a + 1) init (fun i h1 h2 => h i (by omega) (by omega))

lemma foldl_last_valid (P : Nat → Bool) (F : Nat → Str) :
    ∀ (k a j d : Nat) (init : Str), a ≤ j → j < a + k → P j = true →
      j ≤ last_valid P a k d ∧ last_valid P a k d < a + k ∧
      P (last_valid P a k d) = true ∧
      (List.range' a k).foldl (fun best i => if P i then F i else best) init
        = F (last_valid P a k d) := by
  intro k
  induction k with
  | zero => intro a j d init h1 h2 _; omega
  | succ k ih =>
    intro a j d init h1 h2 hj
    have hconcat : List.range' a (k + 1) = List.range' a k ++ [a + k] :=
      List.range'_1_concat a k
    have hlv : last_valid P a (k + 1) d
        = if P (a + k) then a + k else last_valid P a k d := by
      unfold last_valid
      rw [hconcat]
      simp [List.foldl_append]
    have hfold : (List.range' a (k + 1)).foldl
          (fun best i => if P i then F i else best) init
        = if P (a + k) then F (a + k)
          else (List.range' a k).foldl (fun best i => if P i then F i else best) init := by
      rw [hconcat]
      simp [List.foldl_append]
    by_cases hp : P (a + k) = true
    · rw [hlv, hfold]
      simp only [hp, if_true]
      exact ⟨by omega, by omega, trivial, trivial⟩
    · have hpf : P (a + k) = false := by revert hp; cases P (a + k) <;> simp
      have hjk : j < a + k := by
        rcases Nat.lt_succ_iff_lt_or_eq.mp (by omega : j < (a + k) + 1) with h | h
        · exact h
        · exfalso; rw [h] at hj; rw [hj] at hpf; cases hpf
      rcases ih a j d init h1 hjk hj with ⟨c1, c2, c3, c4⟩
      rw [hlv, hfold]
      simp only [hpf, if_false, Bool.false_eq_true]
      exact ⟨c1, by omega, c3, c4⟩

/-! Helper lemmas about the docstring-aware comment filter. -/

lemma comment_aux_append (xs : List Str) :
    ∀ (ys : List Str) (b : Bool),
      comment_aux b (xs ++ ys)
        = comment_aux b xs ++ comment_aux (xs.foldl doc_step b) ys := by
  induction xs with
  | nil => intro ys b; rfl
  | cons line xs ih =>
    intro ys b
    by_cases ht : toggles_delim line = true
    · simp only [List.cons_append, comment_aux, ht, if_true, List.foldl_cons,
        doc_step]
      exact congrArg (line :: ·) (ih ys (!b))
    · have htf : toggles_delim line = false := by revert ht; cases toggles_delim line <;> simp
      by_cases hk : (b || (!starts_hash (py_strip line) && !(py_strip line).isEmpty)) = true
      · simp only [List.cons_append, comment_aux, htf, Bool.false_eq_true, if_false, hk,
          if_true, List.foldl_cons, doc_step]
        exact congrArg (line :: ·) (ih ys b)
      · have hkf : (b || (!starts_hash (py_strip line) && !(py_strip line).isEmpty)) = false := by
          revert hk
          cases (b || (!starts_hash (py_strip line) && !(py_strip line).isEmpty)) <;> simp
        simp only [List.cons_append, comment_aux, htf, Bool.false_eq_true, if_false, hkf,
          List.foldl_cons, doc_step]
        exact ih ys b

lemma comment_aux_cons (st : Bool) (line : Str) (ys : List Str) :
    comment_aux st (line :: ys)
      = (if keep_claim st line then [line] else []) ++ comment_aux (doc_step st line) ys := by
  by_cases ht : toggles_delim line = true
  · have hstep : doc_step st line = !st := by simp [doc_step, ht]
    have hkeep : keep_claim st line = true := by
      cases st <;> simp [keep_claim, doc_step, ht]
    simp [comment_aux, ht, hstep, hkeep]
  · have htf : toggles_delim line = false := by revert ht; cases toggles_delim line <;> simp
    have hstep : doc_step st line = st := by simp [doc_step, htf]
    have hkeep : keep_claim st line
        = (st || (!starts_hash (py_strip line) && !(py_strip line).isEmpty)) := by
      cases st <;> simp [keep_claim, doc_step, htf]
    rw [hstep]
    by_cases hk : (st || (!starts_hash (py_strip line) && !(py_strip line).isEmpty)) = true
    · simp [comment_aux, htf, hk, hkeep]
    · have hkf : (st || (!starts_hash (py_strip line) && !(py_strip line).isEmpty)) = false := by
        revert hk
        cases (st || (!starts_hash (py_strip line) && !(py_strip line).isEmpty)) <;> simp
      simp [comment_aux, htf, hkf, hkeep]

lemma foldl_doc_step_parity (xs : List Str) :
    ∀ b : Bool, xs.foldl doc_step b
      = Bool.xor b (decide (xs.countP toggles_delim % 2 = 1)) := by
  induction xs with
  | nil => intro b; simp
  | cons line xs ih =>
    intro b
    by_cases ht : toggles_delim line = true
    · have hstep : doc_step b line = !b := by simp [doc_step, ht]
      rw [List.foldl_cons, hstep, ih]
      have hcount : (line :: xs).countP toggles_delim = xs.countP toggles_delim + 1 := by
        simp [List.countP_cons, ht]
      rw [hcount]
      have hpar : decide ((xs.countP toggles_delim + 1) % 2 = 1)
          = !(decide (xs.countP toggles_delim % 2 = 1)) := by
        by_cases hp : xs.countP toggles_delim % 2 = 1
        · have hq2 : ¬ ((xs.countP toggles_delim + 1) % 2 = 1) := by omega
          simp [hp, hq2]
        · have hq2 : (xs.countP toggles_delim + 1) % 2 = 1 := by omega
          simp [hp, hq2]
      rw [hpar]
      cases b <;> cases hq : decide (xs.countP toggles_delim % 2 = 1) <;> simp
    · have htf : toggles_delim line = false := by revert ht; cases toggles_delim line <;> simp
      have hstep : doc_step b line = b := by simp [doc_step, htf]
      rw [List.foldl_cons, hstep, ih]
      have hcount : (line :: xs).countP toggles_delim = xs.countP toggles_delim := by
        simp [List.countP_cons, htf]
      rw [hcount]

/-! Helper lemmas about the fallible-oracle scan. -/

lemma scanE_loop_no_failure (oracle : Str → Verdict) (lines : List Str) (s : Nat)
    (h : ∀ c, oracle c ≠ Verdict.failure) :
    ∀ (L : List Nat) (best : Str),
      scanE_loop oracle lines s best L
        = Except.ok (L.foldl (fun best i =>
            if verdict_ok (oracle (candidate lines s i)) then candidate lines s i else best)
            best) := by
  intro L
  induction L with
  | nil => intro best; rfl
  | cons i L ih =>
    intro best
    rw [List.foldl_cons]
    cases hv : oracle (candidate lines s i) with
    | valid =>
      simp only [scanE_loop, hv]
      rw [ih (candidate lines s i)]
      simp [hv, verdict_ok]
    | syntaxError =>
      simp only [scanE_loop, hv]
      rw [ih best]
      simp [hv, verdict_ok]
    | failure => exact absurd hv (h _)

lemma scanE_loop_error (oracle : Str → Verdict) (lines : List Str) (s : Nat) :
    ∀ (L : List Nat) (best : Str) (e : PyError),
      scanE_loop oracle lines s best L = Except.error e → e = PyError.oracleFailure := by
  intro L
  induction L with
  | nil => intro best e h; simp [scanE_loop] at h
  | cons i L ih =>
    intro best e h
    cases hv : oracle (candidate lines s i) with
    | valid =>
      simp only [scanE_loop, hv] at h
      exact ih _ _ h
    | syntaxError =>
      simp only [scanE_loop, hv] at h
      exact ih _ _ h
    | failure =>
      simp only [scanE_loop, hv] at h
      simp at h
      exact h.symm

lemma map_ne_valueError (r : Except PyError Str)
    (hr : ∀ e, r = Except.error e → e = PyError.oracleFailure) :
    r.map py_strip ≠ Except.error PyError.valueError := by
  intro hcon
  cases r with
  | ok v => simp [Except.map] at hcon
  | error e =>
    have he : e = PyError.oracleFailure := hr e rfl
    subst he
    simp [Except.map] at hcon

lemma sanitizeE_ne_valueError (oracle : Str → Verdict) (raw : Str) :
    sanitizeE oracle raw ≠ Except.error PyError.valueError := by
  show (scanE_loop oracle (splitlines (comment_pass (intro_pass (fence_pass raw))))
      (find_start (splitlines (comment_pass (intro_pass (fence_pass raw)))))
      (comment_pass (intro_pass (fence_pass raw)))
      (List.range' (find_start (splitlines (comment_pass (intro_pass (fence_pass raw)))))
        ((splitlines (comment_pass (intro_pass (fence_pass raw)))).length
          - find_start (splitlines (comment_pass (intro_pass (fence_pass raw))))))).map py_strip
    ≠ Except.error PyError.valueError
  exact map_ne_valueError _ (fun e h => scanE_loop_error oracle _ _ _ _ e h)

/-! Helper lemmas about the leading-narrative step. -/

lemma find_start_aux_none :
    ∀ (ls : List Str), (∀ l ∈ ls, starts_code l = false) →
      ∀ i, find_start_aux i ls = 0 := by
  intro ls
  induction ls with
  | nil => intro _ i; rfl
  | cons l rest ih =>
    intro hls i
    have hl : starts_code l = false := hls l (by simp)
    simp only [find_start_aux, hl, Bool.false_eq_true, if_false]
    exact ih (fun x hx => hls x (by simp [hx])) (i + 1)

lemma intro_aux_none :
    ∀ (ls : List Str), (∀ l ∈ ls, starts_code l = false) →
      intro_aux false ls = [] := by
  intro ls
  induction ls with
  | nil => intro _; rfl
  | cons l rest ih =>
    intro hls
    have hl : starts_code l = false := hls l (by simp)
    simp only [intro_aux, hl, Bool.or_false, Bool.false_eq_true, if_false]
    exact ih (fun x hx => hls x (by simp [hx]))

/-! Helper lemmas about replacement and occurrence. -/

/-- The backtick character (written via its code point). -/
def btick : Char := Char.ofNat 96

lemma replace_fuel_no_occur (pat repl : Str) :
    ∀ (fuel : Nat) (t : Str), occursB pat t = false → replace_fuel pat repl fuel t = t := by
  intro fuel
  induction fuel with
  | zero => intro t _; rfl
  | succ fuel ih =>
    intro t h
    cases t with
    | nil => rfl
    | cons c rest =>
      have h1 : pat.isPrefixOf (c :: rest) = false ∧ occursB pat rest = false := by
        simpa [occursB] using h
      simp only [replace_fuel, h1.1, Bool.false_eq_true, if_false]
      rw [ih rest h1.2]

lemma occursB_nil_pat : ∀ t : Str, occursB [] t = true := by
  intro t
  cases t <;> simp [occursB, List.isPrefixOf]

lemma occursB_true_mono (p q : Str) (hpq : p <+: q) :
    ∀ t : Str, occursB q t = true → occursB p t = true := by
  intro t
  induction t with
  | nil =>
    intro h
    simp only [occursB, List.isEmpty_iff] at h ⊢
    subst h
    exact List.prefix_nil.mp hpq
  | cons c rest ih =>
    intro h
    simp only [occursB, Bool.or_eq_true] at h ⊢
    rcases h with h | h
    · left
      have hq : q <+: (c :: rest) := List.isPrefixOf_iff_prefix.mp h
      exact List.isPrefixOf_iff_prefix.mpr (hpq.trans hq)
    · right; exact ih h

lemma occursB_false_mono (p q : Str) (hpq : p <+: q) (t : Str)
    (h : occursB p t = false) : occursB q t = false := by
  cases hq : occursB q t with
  | false => rfl
  | true => rw [occursB_true_mono p q hpq t hq] at h; cases h

lemma occursB_append_left (p u w : Str) (h : occursB p w = true) :
    occursB p (u ++ w) = true := by
  induction u with
  | nil => simpa using h
  | cons c u ih =>
    simp only [List.cons_append, occursB, Bool.or_eq_true]
    right
    exact ih

lemma occursB_append_right (p y z : Str) (h : occursB p y = true) :
    occursB p (y ++ z) = true := by
  induction y with
  | nil =>
    simp only [occursB, List.isEmpty_iff] at h
    subst h
    simpa using occursB_nil_pat z
  | cons c y ih =>
    simp only [occursB, Bool.or_eq_true] at h ⊢
    rcases h with h | h
    · left
      have hq : p <+: (c :: y) := List.isPrefixOf_iff_prefix.mp h
      exact List.isPrefixOf_iff_prefix.mpr (hq.trans (by simp))
    · right; exact ih h

lemma occursB_strip_false (pat t : Str) (h : occursB pat t = false) :
    occursB pat (py_strip t) = false := by
  cases hq : occursB pat (py_strip t) with
  | false => rfl
  | true =>
    exfalso
    rcases rstrip_prefix (lstrip t) with ⟨z, hz⟩
    have h2 : occursB pat (lstrip t) = true := by
      rw [← hz]
      exact occursB_append_right pat _ z hq
    have hsuf : lstrip t <:+ t := List.dropWhile_suffix py_ws
    rcases hsuf with ⟨u, hu⟩
    have h4 : occursB pat t = true := by
      rw [← hu]
      exact occursB_append_left pat u _ h2
    rw [h4] at h
    cases h

lemma isPrefixOf_cons_free (hd : Char) (xs t : Str) (ht : ∀ c ∈ t, c ≠ hd) :
    (hd :: xs).isPrefixOf t = false := by
  cases t with
  | nil => rfl
  | cons c rest =>
    have hc : c ≠ hd := ht c (by simp)
    have hbeq : (hd == c) = false := beq_eq_false_iff_ne.mpr (Ne.symm hc)
    show ((hd == c) && xs.isPrefixOf rest) = false
    rw [hbeq]
    rfl

lemma occursB_head_free (hd : Char) (xs : Str) :
    ∀ t : Str, (∀ c ∈ t, c ≠ hd) → occursB (hd :: xs) t = false := by
  intro t
  induction t with
  | nil => intro _; rfl
  | cons c rest ih =>
    intro ht
    simp only [occursB, Bool.or_eq_false_iff]
    constructor
    · exact isPrefixOf_cons_free hd xs (c :: rest) ht
    · exact ih (fun x hx => ht x (by simp [hx]))

lemma replace_fuel_skip (pat repl : Str) (hd : Char) (ptail : Str) (hp : pat = hd :: ptail) :
    ∀ (A t : Str) (m : Nat), (∀ c ∈ A, c ≠ hd) →
      replace_fuel pat repl (A.length + m) (A ++ t) = A ++ replace_fuel pat repl m t := by
  intro A
  induction A with
  | nil => intro t m _; simp
  | cons c A ih =>
    intro t m hA
    have hc : c ≠ hd := hA c (by simp)
    have hbeq : (hd == c) = false := beq_eq_false_iff_ne.mpr (Ne.symm hc)
    have hpre : pat.isPrefixOf (c :: (A ++ t)) = false := by
      rw [hp]
      show ((hd == c) && ptail.isPrefixOf (A ++ t)) = false
      rw [hbeq]
      rfl
    have harith : (c :: A).length + m = (A.length + m) + 1 := by
      simp [List.length_cons]
      omega
    rw [List.cons_append, harith]
    simp only [replace_fuel, hpre, Bool.false_eq_true, if_false]
    rw [ih t m (fun x hx => hA x (by simp [hx]))]
    rfl

lemma isPrefixOf_append_cancel (x : Str) :
    ∀ u v : Str, (x ++ u).isPrefixOf (x ++ v) = u.isPrefixOf v := by
  induction x with
  | nil => intro u v; rfl
  | cons a x ih =>
    intro u v
    show ((a == a) && (x ++ u).isPrefixOf (x ++ v)) = u.isPrefixOf v
    rw [beq_self_eq_true]
    simp [ih u v]

/-! Helper lemmas about splitting, joining and the intro filter. -/

lemma join_cons_head (c : Char) (L : List Str) :
    join_nl (cons_head c L) = c :: join_nl L := by
  cases L with
  | nil => rfl
  | cons h t =>
    cases t with
    | nil => rfl
    | cons h2 t2 => rfl

lemma split_nl_ne_nil : ∀ s : Str, split_nl s ≠ [] := by
  intro s
  cases s with
  | nil => simp [split_nl]
  | cons c rest =>
    by_cases hc : c = '\n'
    · simp [split_nl, hc]
    · simp only [split_nl, hc, if_false]
      cases split_nl rest <;> simp [cons_head]

lemma join_split_nl : ∀ s : Str, join_nl (split_nl s) = s := by
  intro s
  induction s with
  | nil => rfl
  | cons c rest ih =>
    by_cases hc : c = '\n'
    · subst hc
      rw [show split_nl ('\n' :: rest) = [] :: split_nl rest from by simp [split_nl]]
      rcases hsp : split_nl rest with _ | ⟨h, t⟩
      · exact absurd hsp (split_nl_ne_nil rest)
      · show [] ++ '\n' :: join_nl (h :: t) = '\n' :: rest
        rw [List.nil_append, ← hsp, ih]
    · rw [show split_nl (c :: rest) = cons_head c (split_nl rest) from by
        simp [split_nl, hc]]
      rw [join_cons_head, ih]

lemma splitlinesAux_ne_nil :
    ∀ (t acc : Str), (acc ≠ [] ∨ t ≠ []) → splitlinesAux false acc t ≠ [] := by
  intro t
  induction t with
  | nil =>
    intro acc h
    rcases h with h | h
    · simp [splitlinesAux, List.isEmpty_iff, h]
    · exact absurd rfl h
  | cons c rest ih =>
    intro acc _
    simp only [splitlinesAux, Bool.false_and, Bool.false_eq_true, if_false]
    by_cases h1 : c = '\r'
    · simp [h1]
    · simp only [h1, if_false]
      by_cases h2 : py_linebreak c = true
      · simp [h2]
      · simp only [h2, Bool.false_eq_true, if_false]
        exact ih (c :: acc) (Or.inl (by simp))

lemma splitlines_ne_nil (s : Str) (h : s ≠ []) : splitlines s ≠ [] :=
  splitlinesAux_ne_nil s [] (Or.inr h)

lemma intro_aux_length : ∀ (b : Bool) (ls : List Str),
    (intro_aux b ls).length ≤ ls.length := by
  intro b ls
  induction ls generalizing b with
  | nil => simp [intro_aux]
  | cons l rest ih =>
    by_cases hb : (b || starts_code l) = true
    · simp only [intro_aux, hb, if_true, List.length_cons]
      have := ih true
      omega
    · have hbf : (b || starts_code l) = false := by
        revert hb; cases (b || starts_code l) <;> simp
      simp only [intro_aux, hbf, Bool.false_eq_true, if_false, List.length_cons]
      have := ih false
      omega

lemma intro_aux_fixed_head (l : Str) (rest : List Str)
    (h : intro_aux false (l :: rest) = l :: rest) : starts_code l = true := by
  cases hs : starts_code l with
  | true => rfl
  | false =>
    exfalso
    have he : intro_aux false (l :: rest) = intro_aux false rest := by
      simp [intro_aux, hs]
    rw [he] at h
    have hlen := intro_aux_length false rest
    rw [h] at hlen
    simp only [List.length_cons] at hlen
    omega

/-! Claim theorems. -/

/-- C1: for every input line sequence and the fixed start boundary, the
validity scanner of `_strip_trailing_prose` retains the candidate with
the largest validated end index: if the candidates ending at `e1 < e2`
both validate, the scan result is (the stripped form of) the candidate
ending at `scan_result_idx`, which is at least `e2` - never the shorter
candidate - because the loop runs to the last line instead of stopping
at the first success. -/
theorem scanner_monotonic_longest (validate : Str → Bool) (code : Str) (e1 e2 : Nat)
    (h1 : find_start (splitlines code) ≤ e1) (_hv1 : scan_valid validate code e1 = true)
    (h2 : e1 < e2) (h3 : e2 < (splitlines code).length)
    (hv2 : scan_valid validate code e2 = true) :
    e2 ≤ scan_result_idx validate code ∧
    scan_valid validate code (scan_result_idx validate code) = true ∧
    strip_trailing_prose validate code
      = py_strip (candidate (splitlines code) (find_start (splitlines code))
          (scan_result_idx validate code)) := by
  have key := foldl_last_valid (scan_valid validate code)
    (fun i => candidate (splitlines code) (find_start (splitlines code)) i)
    ((splitlines code).length - find_start (splitlines code))
    (find_start (splitlines code)) e2 0 code (by omega) (by omega) hv2
  rcases key with ⟨k1, k2, k3, k4⟩
  exact ⟨k1, k3, congrArg py_strip k4⟩

/-- C1 witness: with an oracle accepting exactly the candidates ending
at indices 0 and 1, the scan of a two-line input keeps the longer one. -/
theorem scanner_monotonic_longest_wit :
    find_start (splitlines "import os\nimport re".data) ≤ 0 ∧
    scan_valid (fun c => decide (c = "import os".data) || decide (c = "import os\nimport re".data))
      "import os\nimport re".data 0 = true ∧
    (0 : Nat) < 1 ∧ 1 < (splitlines "import os\nimport re".data).length ∧
    scan_valid (fun c => decide (c = "import os".data) || decide (c = "import os\nimport re".data))
      "import os\nimport re".data 1 = true ∧
    (1 ≤ scan_result_idx
        (fun c => decide (c = "import os".data) || decide (c = "import os\nimport re".data))
        "import os\nimport re".data ∧
      scan_valid (fun c => decide (c = "import os".data) || decide (c = "import os\nimport re".data))
        "import os\nimport re".data
        (scan_result_idx
          (fun c => decide (c = "import os".data) || decide (c = "import os\nimport re".data))
          "import os\nimport re".data) = true ∧
      strip_trailing_prose
          (fun c => decide (c = "import os".data) || decide (c = "import os\nimport re".data))
          "import os\nimport re".data
        = py_strip (candidate (splitlines "import os\nimport re".data)
            (find_start (splitlines "import os\nimport re".data))
            (scan_result_idx
              (fun c => decide (c = "import os".data) || decide (c = "import os\nimport re".data))
              "import os\nimport re".data))) :=
  ⟨by decide, by decide, by decide, by decide, by decide,
    scanner_monotonic_longest
      (fun c => decide (c = "import os".data) || decide (c = "import os\nimport re".data))
      "import os\nimport re".data 0 1 (by decide) (by decide) (by decide) (by decide) (by decide)⟩

/-- C2: when no candidate from the code-start boundary validates, the
scan's fallback returns its input unchanged, so the sanitization output
equals the text exactly as it stood after the fence, leading-narrative
and outside-docstring comment passes. -/
theorem scanner_fallback (validate : Str → Bool) (raw : Str)
    (h : ∀ i, find_start (splitlines (comment_pass (intro_pass (fence_pass raw)))) ≤ i →
      i < (splitlines (comment_pass (intro_pass (fence_pass raw)))).length →
      scan_valid validate (comment_pass (intro_pass (fence_pass raw))) i = false) :
    sanitize validate raw = comment_pass (intro_pass (fence_pass raw)) := by
  have noop := foldl_scan_noop
    (scan_valid validate (comment_pass (intro_pass (fence_pass raw))))
    (fun i => candidate (splitlines (comment_pass (intro_pass (fence_pass raw))))
      (find_start (splitlines (comment_pass (intro_pass (fence_pass raw))))) i)
    ((splitlines (comment_pass (intro_pass (fence_pass raw)))).length
      - find_start (splitlines (comment_pass (intro_pass (fence_pass raw)))))
    (find_start (splitlines (comment_pass (intro_pass (fence_pass raw)))))
    (comment_pass (intro_pass (fence_pass raw)))
    (fun i h1 h2 => h i h1 (by omega))
  have e1 : sanitize validate raw
      = py_strip (comment_pass (intro_pass (fence_pass raw))) := congrArg py_strip noop
  have e2 : py_strip (comment_pass (intro_pass (fence_pass raw)))
      = comment_pass (intro_pass (fence_pass raw)) :=
    py_strip_idem (join_nl (comment_aux false (split_nl (intro_pass (fence_pass raw)))))
  exact e1.trans e2

/-- C2 witness: with an oracle rejecting everything, the pipeline
returns the post-filter text unchanged. -/
theorem scanner_fallback_wit :
    sanitize (fun _ => false) "def f(:".data
      = comment_pass (intro_pass (fence_pass "def f(:".data)) :=
  scanner_fallback (fun _ => false) "def f(:".data (fun _ _ _ => rfl)

/-- C10: whenever some candidate validates, the string the scanner
returns is itself accepted by the oracle, provided the oracle is stable
under the final whitespace strip (as Python `ast.parse` is: stripping
outer whitespace from a parseable module keeps it parseable). -/
theorem scanner_result_valid (validate : Str → Bool) (code : Str) (j : Nat)
    (hmono : ∀ c, validate c = true → validate (py_strip c) = true)
    (hs : find_start (splitlines code) ≤ j) (hj : j < (splitlines code).length)
    (hv : scan_valid validate code j = true) :
    validate (strip_trailing_prose validate code) = true := by
  have key := foldl_last_valid (scan_valid validate code)
    (fun i => candidate (splitlines code) (find_start (splitlines code)) i)
    ((splitlines code).length - find_start (splitlines code))
    (find_start (splitlines code)) j 0 code hs (by omega) hv
  rcases key with ⟨_, _, c3, c4⟩
  have e1 : strip_trailing_prose validate code
      = py_strip (candidate (splitlines code) (find_start (splitlines code))
          (scan_result_idx validate code)) := congrArg py_strip c4
  rw [e1]
  exact hmono _ c3

/-- C10 witness: an oracle accepting exactly one (already stripped)
program validates the scanner's result on that program. -/
theorem scanner_result_valid_wit :
    (fun c => decide (c = "def f():\n    return 1".data))
        (strip_trailing_prose (fun c => decide (c = "def f():\n    return 1".data))
          "def f():\n    return 1".data) = true :=
  scanner_result_valid (fun c => decide (c = "def f():\n    return 1".data))
    "def f():\n    return 1".data 1
    (fun c hc => by
      have hceq : c = "def f():\n    return 1".data := of_decide_eq_true hc
      subst hceq
      decide)
    (by decide) (by decide) (by decide)

/-- C5: a line of the comment filter input is retained exactly when the
docstring state is or was Inside during that line (which covers every
delimiter line, since a toggle leaves one side Inside), or the state is
Outside and the stripped line neither begins with the comment token nor
is empty; in particular lines strictly inside a docstring are kept
verbatim, including lines beginning with the comment token, while blank
or comment lines outside a docstring are dropped entirely. -/
theorem comment_filter_line_rule (xs : List Str) (line : Str) (ys : List Str) :
    comment_aux false (xs ++ line :: ys)
      = comment_aux false xs
          ++ (if keep_claim (doc_state xs) line then [line] else [])
          ++ comment_aux (doc_step (doc_state xs) line) ys := by
  rw [comment_aux_append xs (line :: ys) false]
  rw [show List.foldl doc_step false xs = doc_state xs from rfl]
  rw [comment_aux_cons (doc_state xs) line ys]
  simp [List.append_assoc]

/-- C6: the docstring state machine starts Outside, and after any prefix
of the lines the state is exactly the parity of the number of lines
whose stripped form starts or ends with the delimiter token - each such
line toggles exactly once, no matter how many delimiter occurrences it
contains, and every other line leaves the state unchanged; the filter
processes the remaining lines from exactly that state. -/
theorem docstring_state_toggle (xs ys : List Str) :
    comment_aux false (xs ++ ys)
      = comment_aux false xs ++ comment_aux (doc_state xs) ys ∧
    doc_state xs = decide (xs.countP toggles_delim % 2 = 1) := by
  constructor
  · exact comment_aux_append xs ys false
  · have := foldl_doc_step_parity xs false
    simpa [doc_state] using this

/-- C4 counterexample: an oracle failure that is not a SyntaxError is
NOT swallowed by the scan loop - `_strip_trailing_prose` catches only
`SyntaxError`, so any other oracle failure propagates out of the
pipeline as an exception, contradicting the claim that the pipeline
never raises once given a non-empty string. -/
theorem oracle_failure_raises :
    sanitizeE (fun _ => Verdict.failure) "def f():".data
      = Except.error PyError.oracleFailure := rfl

/-- C4 amended: only oracle failures reported as SyntaxError are
treated as plain false verdicts; when the oracle never fails in any
other way, the pipeline is total and refines the boolean-oracle
pipeline, with SyntaxError acting exactly as a false verdict. -/
theorem scanner_total_when_oracle_total (oracle : Str → Verdict) (raw : Str)
    (h : ∀ c, oracle c ≠ Verdict.failure) :
    sanitizeE oracle raw = Except.ok (sanitize (fun c => verdict_ok (oracle c)) raw) := by
  show (scanE_loop oracle (splitlines (comment_pass (intro_pass (fence_pass raw))))
      (find_start (splitlines (comment_pass (intro_pass (fence_pass raw)))))
      (comment_pass (intro_pass (fence_pass raw)))
      (List.range' (find_start (splitlines (comment_pass (intro_pass (fence_pass raw)))))
        ((splitlines (comment_pass (intro_pass (fence_pass raw)))).length
          - find_start (splitlines (comment_pass (intro_pass (fence_pass raw))))))).map py_strip
    = Except.ok (sanitize (fun c => verdict_ok (oracle c)) raw)
  rw [scanE_loop_no_failure oracle _ _ h _ _]
  rfl

/-- C4 witness: with a never-failing oracle the fallible pipeline
returns Except.ok of the boolean pipeline's output. -/
theorem scanner_total_when_oracle_total_wit :
    sanitizeE (fun _ => Verdict.valid) "def f():".data
      = Except.ok (sanitize (fun _ => true) "def f():".data) :=
  scanner_total_when_oracle_total (fun _ => Verdict.valid) "def f():".data
    (fun _ h => Verdict.noConfusion h)

/-- C7: the top-level generation operation fails with the ValueError for
an empty description exactly when the description strips to nothing,
regardless of the model and of the oracle (so the check happens before
the model is consulted); for any description with a non-whitespace
character no such error is ever produced. -/
theorem generate_empty_input (model : Str → Str) (oracle : Str → Verdict)
    (description : Str) :
    generateE model oracle description = Except.error PyError.valueError
      ↔ (py_strip description).isEmpty = true := by
  by_cases h : (py_strip description).isEmpty = true
  · simp [generateE, h]
  · simp only [generateE, h, Bool.false_eq_true, if_false]
    constructor
    · intro hcon
      exact (sanitizeE_ne_valueError oracle (model description) hcon).elim
    · intro hcon
      exact hcon.elim

/-- C3 counterexample: on a text with no code-start line, the
orchestrator's prefix-locating step (generator.py lines 136-145) does
not treat the whole text as code - it discards every line, leaving the
empty string, contrary to the claim that no line is discarded. -/
theorem intro_filter_discards_all :
    starts_code "hello".data = false ∧ "hello".data ≠ [] ∧
    intro_pass "hello".data = [] := by decide

/-- C3 amended: when no line's stripped content begins with a
code-start token, the start-index search of `_strip_trailing_prose`
does default to index 0 (the whole text is scanned as code), but the
orchestrator's leading-narrative filter instead discards every line,
producing empty output. -/
theorem prefix_default_zero (lines : List Str)
    (h : ∀ l ∈ lines, starts_code l = false) :
    find_start lines = 0 ∧ intro_aux false lines = [] :=
  ⟨find_start_aux_none lines h 0, intro_aux_none lines h⟩

/-- C3 witness: a two-line narrative with no code-start token. -/
theorem prefix_default_zero_wit :
    find_start ["narrative".data, "text".data] = 0 ∧
    intro_aux false ["narrative".data, "text".data] = [] :=
  prefix_default_zero ["narrative".data, "text".data] (by decide)

/-- C9 counterexample: on fence-free input with outer whitespace, the
fence-stripping step is not a no-op and does not leave all non-fence
text untouched: line 133 first strips leading and trailing whitespace. -/
theorem fence_step_not_noop :
    occursB fence_mark " x".data = false ∧ fence_pass " x".data = "x".data ∧
    fence_pass " x".data ≠ " x".data := by decide

/-- C9 amended: the fence-stripping step first trims outer whitespace;
on trimmed text of the shape `A ++ fence_mark ++ B` (with no backtick
and no interfering language tag around the marker) it deletes the
marker and leaves all other text untouched, and when the input contains
no fence marker at all the step coincides with the whitespace trim, so
it is a no-op exactly on already-trimmed fence-free text. -/
theorem fence_pass_characterization (t A B : Str) :
    (occursB fence_mark t = false → fence_pass t = py_strip t) ∧
    ((∀ c ∈ A, c ≠ btick) → (∀ c ∈ B, c ≠ btick) →
      "python".data.isPrefixOf B = false →
      py_strip (A ++ fence_mark ++ B) = A ++ fence_mark ++ B →
      fence_pass (A ++ fence_mark ++ B) = A ++ B) := by
  have hmark : fence_mark = btick :: btick :: btick :: [] := by decide
  have hlang : fence_lang = btick :: btick :: btick :: "python".data := by decide
  constructor
  · intro h2
    have hstrip : occursB fence_mark (py_strip t) = false := occursB_strip_false _ _ h2
    have hlangf : occursB fence_lang (py_strip t) = false :=
      occursB_false_mono fence_mark fence_lang ⟨"python".data, by decide⟩ _ hstrip
    show py_replace (py_replace (py_strip t) fence_lang []) fence_mark [] = py_strip t
    rw [show py_replace (py_strip t) fence_lang [] = py_strip t from
      replace_fuel_no_occur fence_lang [] _ _ hlangf]
    exact replace_fuel_no_occur fence_mark [] _ _ hstrip
  · intro hA hB hpy htrim
    have hm3 : fence_mark.length = 3 := by decide
    have hBfree3 : occursB fence_lang B = false := by
      rw [hlang]
      exact occursB_head_free btick _ B hB
    have hBmark : occursB fence_mark B = false := by
      rw [hmark]
      exact occursB_head_free btick _ B hB
    have e1 : fence_mark ++ B = btick :: btick :: btick :: B := by
      rw [hmark]
      rfl
    have c1 : fence_lang.isPrefixOf (btick :: btick :: btick :: B) = false := by
      rw [hlang]
      simp only [List.isPrefixOf, beq_self_eq_true, Bool.true_and]
      exact hpy
    have c2 : fence_lang.isPrefixOf (btick :: btick :: B) = false := by
      rw [hlang]
      simp only [List.isPrefixOf, beq_self_eq_true, Bool.true_and]
      exact isPrefixOf_cons_free btick ("python".data) B hB
    have c3 : fence_lang.isPrefixOf (btick :: B) = false := by
      rw [hlang]
      simp only [List.isPrefixOf, beq_self_eq_true, Bool.true_and]
      exact isPrefixOf_cons_free btick (btick :: "python".data) B hB
    have langpass : replace_fuel fence_lang [] (3 + B.length) (fence_mark ++ B)
        = fence_mark ++ B := by
      rw [e1]
      rw [show 3 + B.length = (2 + B.length) + 1 by omega]
      simp only [replace_fuel, c1, Bool.false_eq_true, if_false]
      rw [show 2 + B.length = (1 + B.length) + 1 by omega]
      simp only [replace_fuel, c2, Bool.false_eq_true, if_false]
      rw [show 1 + B.length = B.length + 1 by omega]
      simp only [replace_fuel, c3, Bool.false_eq_true, if_false]
      rw [replace_fuel_no_occur fence_lang [] B.length B hBfree3]
    have cm : fence_mark.isPrefixOf (btick :: btick :: btick :: B) = true := by
      rw [hmark]
      simp [List.isPrefixOf, beq_self_eq_true]
    have markpass : replace_fuel fence_mark [] (3 + B.length) (fence_mark ++ B) = B := by
      rw [e1]
      rw [show 3 + B.length = (2 + B.length) + 1 by omega]
      simp only [replace_fuel, cm, if_true]
      rw [show fence_mark.length - 1 = 2 from by decide]
      show replace_fuel fence_mark [] (2 + B.length) B = B
      exact replace_fuel_no_occur fence_mark [] _ B hBmark
    have hlen : (A ++ (fence_mark ++ B)).length = A.length + (3 + B.length) := by
      simp [List.length_append, hm3]
    have step1 : py_replace (A ++ fence_mark ++ B) fence_lang []
        = A ++ fence_mark ++ B := by
      show replace_fuel fence_lang [] (A ++ fence_mark ++ B).length (A ++ fence_mark ++ B)
        = A ++ fence_mark ++ B
      rw [List.append_assoc, hlen]
      rw [replace_fuel_skip fence_lang [] btick (btick :: btick :: "python".data) hlang
        A (fence_mark ++ B) (3 + B.length) hA]
      rw [langpass]
    have step2 : py_replace (A ++ fence_mark ++ B) fence_mark [] = A ++ B := by
      show replace_fuel fence_mark [] (A ++ fence_mark ++ B).length (A ++ fence_mark ++ B)
        = A ++ B
      rw [List.append_assoc, hlen]
      rw [replace_fuel_skip fence_mark [] btick (btick :: btick :: []) hmark
        A (fence_mark ++ B) (3 + B.length) hA]
      rw [markpass]
    show py_replace (py_replace (py_strip (A ++ fence_mark ++ B)) fence_lang []) fence_mark []
      = A ++ B
    rw [htrim, step1, step2]

/-- C9 witness: the no-marker case equals the trim, and a marker
between backtick-free text is deleted with the rest untouched. -/
theorem fence_pass_characterization_wit :
    fence_pass " a b".data = py_strip " a b".data ∧
    fence_pass ("x ".data ++ fence_mark ++ " y".data) = "x ".data ++ " y".data :=
  ⟨(fence_pass_characterization " a b".data "x ".data " y".data).1 (by decide),
   (fence_pass_characterization " a b".data "x ".data " y".data).2
     (by decide) (by decide) (by decide) (by decide)⟩

/-- C8 counterexample: a fence-free, comment-free input that the oracle
validates is not returned unchanged modulo trailing whitespace - the
comment filter also drops blank lines outside docstrings, so the blank
line inside the function body disappears. -/
theorem sanitize_not_idempotent :
    occursB fence_mark "def f():\n\n    return 1".data = false ∧
    occursB ['#'] "def f():\n\n    return 1".data = false ∧
    (fun c => decide (c = "def f():\n\n    return 1".data)
      || decide (c = "def f():\n    return 1".data)) "def f():\n\n    return 1".data = true ∧
    sanitize (fun c => decide (c = "def f():\n\n    return 1".data)
      || decide (c = "def f():\n    return 1".data)) "def f():\n\n    return 1".data
      = "def f():\n    return 1".data ∧
    rstrip (sanitize (fun c => decide (c = "def f():\n\n    return 1".data)
      || decide (c = "def f():\n    return 1".data)) "def f():\n\n    return 1".data)
      ≠ rstrip "def f():\n\n    return 1".data := by decide

/-- C8 amended: already-clean input is a fixed point of the whole
pipeline when, in addition to being fence-free and oracle-valid, it is
already stripped of outer whitespace, begins with a code-start line,
its line decomposition rejoins to it exactly, and the narrative and
comment filters retain every line (so no blank or comment line outside
a docstring); inputs with blank lines outside docstrings are altered,
as the counterexample shows. -/
theorem sanitize_clean_fixed (validate : Str → Bool) (s : Str)
    (h0 : s ≠ [])
    (h1 : py_strip s = s)
    (h2 : occursB fence_mark s = false)
    (h3 : intro_aux false (splitlines s) = splitlines s)
    (h4 : comment_aux false (split_nl s) = split_nl s)
    (h5 : join_nl (splitlines s) = s)
    (h7 : validate s = true) :
    sanitize validate s = s := by
  have hlangf : occursB fence_lang s = false :=
    occursB_false_mono fence_mark fence_lang ⟨"python".data, by decide⟩ _ h2
  have e1 : fence_pass s = s := by
    show py_replace (py_replace (py_strip s) fence_lang []) fence_mark [] = s
    rw [h1]
    rw [show py_replace s fence_lang [] = s from replace_fuel_no_occur fence_lang [] _ _ hlangf]
    exact replace_fuel_no_occur fence_mark [] _ _ h2
  have e2 : intro_pass s = s := by
    show py_strip (join_nl (intro_aux false (splitlines s))) = s
    rw [h3, h5, h1]
  have e3 : comment_pass s = s := by
    show py_strip (join_nl (comment_aux false (split_nl s))) = s
    rw [h4, join_split_nl, h1]
  have epipe : sanitize validate s = strip_trailing_prose validate s := by
    show strip_trailing_prose validate (comment_pass (intro_pass (fence_pass s)))
      = strip_trailing_prose validate s
    rw [e1, e2, e3]
  rw [epipe]
  have hne : splitlines s ≠ [] := splitlines_ne_nil s h0
  obtain ⟨l, rest, hlr⟩ : ∃ l rest, splitlines s = l :: rest := by
    cases hsp : splitlines s with
    | nil => exact absurd hsp hne
    | cons l rest => exact ⟨l, rest, rfl⟩
  have hhead : starts_code l = true := by
    rw [hlr] at h3
    exact intro_aux_fixed_head l rest h3
  have hfs : find_start (splitlines s) = 0 := by
    rw [hlr]
    show find_start_aux 0 (l :: rest) = 0
    simp [find_start_aux, hhead]
  have hnpos : 0 < (splitlines s).length := by rw [hlr]; simp
  have hcand : candidate (splitlines s) 0 ((splitlines s).length - 1) = s := by
    show join_nl (((splitlines s).drop 0).take ((splitlines s).length - 1 + 1 - 0)) = s
    rw [List.drop_zero]
    rw [show (splitlines s).length - 1 + 1 - 0 = (splitlines s).length by omega]
    rw [List.take_length]
    exact h5
  have hvfull : (fun i => validate (candidate (splitlines s) (find_start (splitlines s)) i))
      ((splitlines s).length - 1) = true := by
    show validate (candidate (splitlines s) (find_start (splitlines s))
      ((splitlines s).length - 1)) = true
    rw [hfs, hcand]
    exact h7
  have key := foldl_last_valid
    (fun i => validate (candidate (splitlines s) (find_start (splitlines s)) i))
    (fun i => candidate (splitlines s) (find_start (splitlines s)) i)
    ((splitlines s).length - find_start (splitlines s)) (find_start (splitlines s))
    ((splitlines s).length - 1) 0 s
    (by rw [hfs]; omega) (by rw [hfs]; omega) hvfull
  rcases key with ⟨k1, k2, _, k4⟩
  have hlv : last_valid
      (fun i => validate (candidate (splitlines s) (find_start (splitlines s)) i))
      (find_start (splitlines s)) ((splitlines s).length - find_start (splitlines s)) 0
      = (splitlines s).length - 1 := by
    rw [hfs] at k1 k2 ⊢
    omega
  have efold : strip_trailing_prose validate s
      = py_strip (candidate (splitlines s) (find_start (splitlines s))
          (last_valid
            (fun i => validate (candidate (splitlines s) (find_start (splitlines s)) i))
            (find_start (splitlines s))
            ((splitlines s).length - find_start (splitlines s)) 0)) :=
    congrArg py_strip k4
  rw [efold, hlv, hfs, hcand, h1]

/-- C8 witness: a clean two-line function with no blank lines is
returned byte-for-byte unchanged. -/
theorem sanitize_clean_fixed_wit :
    sanitize (fun c => decide (c = "def f():\n    return 1".data))
      "def f():\n    return 1".data = "def f():\n    return 1".data :=
  sanitize_clean_fixed (fun c => decide (c = "def f():\n    return 1".data))
    "def f():\n    return 1".data (by decide) (by decide) (by decide) (by decide)
    (by decide) (by decide) (by decide)
